import Mathlib

/-!
Verification of the arrcat crate: a shallow embedding of the concat_arrays
macro and its const-evaluable internals, modelled from src/internals.rs and
src/macros/concat_array_macro.rs.

Rust arrays [T; N] are modelled as Lean lists (with length facts where the
Rust type system enforces them), byte sizes as naturals, and the macro
expansion as a total function from the parsed invocation to the produced
value together with the optionally declared LEN associated constant.
-/

namespace Arrcat

universe u v

/-- Model of core::mem::ManuallyDrop: a wrapper whose destructor is suppressed. -/
structure ManuallyDrop (β : Type u) where
  value : β

/-- A Rust array value of type [T; N]: a list of exactly N elements. -/
abbrev RustArray (α : Type u) (N : Nat) := { l : List α // l.length = N }

/-- Model of internals::Usize, a unit struct with one const parameter N. -/
structure Usize (N : Nat)

/-- Usize::get returns the const parameter N. -/
def Usize.get {N : Nat} (_ : Usize N) : Nat := N

/-- Usize::infer_mda has an empty body; its parameter type &ManuallyDrop<[T; N]>
forces N to unify with the length of the array the caller passes. -/
def Usize.infer_mda {N : Nat} {α : Type u} (_ : Usize N) (_ : ManuallyDrop (RustArray α N)) :
    Unit := ()

/-- Model of internals::Identity, a repr(transparent) wrapper with field inner. -/
structure Identity (β : Type u) where
  inner : β

/-- Model of internals::ArrayAndGhost: a repr(transparent) wrapper around an
array [T; LEN] together with a PhantomData<T> field (modelled as Unit). -/
structure ArrayAndGhost (α : Type u) (LEN : Nat) where
  inner : List α
  elem_ty : Unit

/-- Byte size of the Rust array type [T; n] when size_of T is s: arrays have
no padding, so it is n * s. -/
def sizeOfArray (s n : Nat) : Nat := n * s

/-- Byte size of the repr(C, packed) struct __Concater whose fields are the
array types [T; len_i]: packed fields abut with no padding, so sizes add. -/
def sizeOfConcater (s : Nat) (lens : List Nat) : Nat :=
  (lens.map (sizeOfArray s)).sum

/-- The size-equality static assertion in internals::concat_arrays:
size_of of the source aggregate equals size_of of [T; CONCAT_LEN]. -/
def concatAssert (s : Nat) (lens : List Nat) (CONCAT_LEN : Nat) : Bool :=
  sizeOfConcater s lens == sizeOfArray s CONCAT_LEN

/-- Model of internals::concat_arrays: the transmuting primitive. The source
value is the packed aggregate of per-argument arrays (fields); the assert
compares its byte size against the target array type. When the assertion
passes and the element counts genuinely agree, the union-based reinterpretation
relabels the abutted field storage as one flat array, i.e. the concatenation
of the fields. (When the assertion passes but counts disagree, which can only
happen for a zero-sized element type, the real code materializes CONCAT_LEN
zero-sized values; a parametric element model has no such values, so that case
is left unmodelled.) A failed assertion is a const-eval failure: no value. -/
def concat_arrays {α : Type u} (s : Nat) (fields : List (List α)) (CONCAT_LEN : Nat) :
    Option (List α) :=
  if concatAssert s (fields.map List.length) CONCAT_LEN then
    if fields.flatten.length = CONCAT_LEN then some fields.flatten else none
  else none

/-- An array-literal argument as parsed by the macro: an element list
[a, b, c] (possibly empty) or the repeat form [v; n]. -/
inductive ArrLit (α : Type u) where
  | elems (es : List α)
  | rep (v : α) (n : Nat)
deriving DecidableEq

/-- Value denoted by an array literal. -/
def litValue {α : Type u} : ArrLit α → List α
  | .elems es => es
  | .rep v n => List.replicate n v

/-- Model of the __as_unit helper: maps any tokens to the unit value. -/
def __as_unit {α : Type u} (_ : α) : Unit := ()

/-- Model of __get_array_length: the repeat form [v; n] resolves to n, the
empty literal to 0, and an element list to the length of the unit array built
by replacing each element expression with __as_unit of it. -/
def __get_array_length {α : Type u} : ArrLit α → Nat
  | .rep _ n => n
  | .elems [] => 0
  | .elems es => (es.map __as_unit).length

/-- The type annotation attached to a macro argument. lenAnn n is the
transparent form with concrete length. inferAnn is the transparent form with
an underscore length. typeAnn is an opaque type, necessarily an array type,
carrying its ArrayLength::LENGTH. -/
inductive Ann where
  | noAnn
  | lenAnn (n : Nat)
  | inferAnn
  | typeAnn (LENGTH : Nat)
deriving DecidableEq

/-- A macro argument: an array literal, or a parenthesized/braced/path
expression of array type (the path rules rewrite paths into the
parenthesized form), each with an optional annotation. -/
inductive Arg (α : Type u) where
  | litArg (l : ArrLit α) (ann : Ann)
  | exprArg (v : List α) (ann : Ann)
deriving DecidableEq

/-- The array value an argument denotes. -/
def argValue {α : Type u} : Arg α → List α
  | .litArg l _ => litValue l
  | .exprArg v _ => v

/-- The annotation of an argument. -/
def argAnn {α : Type u} : Arg α → Ann
  | .litArg _ ann => ann
  | .exprArg _ ann => ann

/-- Model of the statements inside __length_or_infer for the execution-count
question: the probe call, sequencing, and conditionals. -/
inductive Stmt where
  | skip
  | probeCall
  | seq (a b : Stmt)
  | ifStmt (c : Bool) (t : Stmt) (e : Stmt)

/-- How many times executing a statement runs the infer_mda probe. -/
def probeRuns : Stmt → Nat
  | .skip => 0
  | .probeCall => 1
  | .seq a b => probeRuns a + probeRuns b
  | .ifStmt c t e => if c then probeRuns t else probeRuns e

/-- The guard in the infer branch of __length_or_infer: the literal statement
if false then the infer_mda probe call. -/
def inferGuard : Stmt := .ifStmt false .probeCall .skip

/-- Model of the infer branch of __length_or_infer: let len = Usize; if false
then probe len against &ManuallyDrop::new(expr), which unifies the const
parameter N with the actual array length; then len.get(). -/
def __length_or_infer_inferred {α : Type u} (v : List α) : Nat :=
  let len : Usize v.length := Usize.mk
  let _guard : Unit :=
    if false then len.infer_mda (ManuallyDrop.mk ⟨v, rfl⟩) else ()
  len.get

/-- The per-argument resolved length recorded by __concat_arrays_inner:
literals always go through __get_array_length; expressions use
__length_or_infer, which returns the annotated concrete length, the
annotated type's ArrayLength::LENGTH, or the inferred actual length. -/
def resolvedLen {α : Type u} : Arg α → Nat
  | .litArg l _ => __get_array_length l
  | .exprArg v .noAnn => __length_or_infer_inferred v
  | .exprArg v .inferAnn => __length_or_infer_inferred v
  | .exprArg _ (.lenAnn n) => n
  | .exprArg _ (.typeAnn L) => L

/-- The CONCAT_LEN computation in the final rule of __concat_arrays_inner:
let mut len = 0; then len += resolved length of each argument, left to right. -/
def concatLen {α : Type u} (args : List (Arg α)) : Nat :=
  args.foldl (fun len a => len + resolvedLen a) 0

/-- The shape of the tokens __type_ascription receives for an argument:
no tokens, the transparent [elem_ty; _] form, or a plain type. -/
inductive AscriptionForm where
  | emptyForm
  | ghostForm
  | identityForm
deriving DecidableEq

/-- Which __type_ascription rule each annotation selects: no annotation gives
the bare expression, [E; _] matches the ArrayAndGhost rule, and both [E; n]
and an opaque type are plain types matching the Identity rule. -/
def annAscription : Ann → AscriptionForm
  | .noAnn => .emptyForm
  | .inferAnn => .ghostForm
  | .lenAnn _ => .identityForm
  | .typeAnn _ => .identityForm

/-- Model of __type_ascription: return the expression unchanged, or construct
the repr(transparent) wrapper (ArrayAndGhost or Identity) around it and
immediately project its inner field. -/
def __type_ascription {α : Type u} (e : List α) : AscriptionForm → List α
  | .emptyForm => e
  | .ghostForm => (@ArrayAndGhost.mk α e.length e ()).inner
  | .identityForm => (Identity.mk e).inner

/-- The length constraint the annotation imposes through type checking: the
Identity ascription of [E; n] or of an opaque array type forces the value to
have that length. -/
def annLenOk (len : Nat) : Ann → Bool
  | .lenAnn n => len == n
  | .typeAnn L => len == L
  | .noAnn => true
  | .inferAnn => true

/-- Whether one argument type-checks in the expanded code: its value fits the
__Concater field type [T; resolvedLen], and its annotation, if any, matches
its actual length. -/
def argOk {α : Type u} (a : Arg α) : Bool :=
  ((argValue a).length == resolvedLen a) && annLenOk (argValue a).length (argAnn a)

/-- Whether the whole argument list type-checks (rustc accepts the expansion). -/
def argsOk {α : Type u} (args : List (Arg α)) : Bool := args.all argOk

/-- Model of __declare_length_type_and_pass: with a length type T it defines
the associated constant T::LEN as the computed length and passes T::LEN on;
without one it passes the computed length directly. Returns the declared
(type, LEN) pair, if any, and the passed value. -/
def __declare_length_type_and_pass {τ : Type v} : Option τ → Nat → Option (τ × Nat) × Nat
  | some t, len => (some (t, len), len)
  | none, len => (none, len)

/-- Model of the final rule of __concat_arrays_inner: compute CONCAT_LEN by
summing the resolved lengths (routed through the length type declaration when
present), build the packed __Concater from the type-ascribed argument values,
and call internals::concat_arrays. Returns the produced value together with
the declared LEN constant, if any. An argument list rustc rejects produces
no value. -/
def concatArraysInner {α : Type u} {τ : Type v} (s : Nat) (lt : Option τ)
    (args : List (Arg α)) : Option (List α) × Option (τ × Nat) :=
  (if argsOk args then
    concat_arrays s
      (args.map fun a => __type_ascription (argValue a) (annAscription (argAnn a)))
      (__declare_length_type_and_pass lt (concatLen args)).2
  else none,
  (__declare_length_type_and_pass lt (concatLen args)).1)

/-- The leading part of a concat_arrays invocation: either no directive clause
at all, or a semicolon-terminated clause with an optional length_type. -/
inductive Directive (τ : Type v) where
  | noClause
  | clause (lt : Option τ)
deriving DecidableEq

/-- What the top level of the macro expands to: the bare empty-array literal,
or the generic machinery applied to an argument list. -/
inductive Expansion (α : Type u) (τ : Type v) where
  | emptyLit
  | machinery (lt : Option τ) (args : List (Arg α))
deriving DecidableEq

/-- Model of __concat_arrays_preprocess_inner: an empty argument list is
rewritten to the single empty array literal; otherwise the arguments are
passed through unchanged. -/
def __concat_arrays_preprocess_inner {α : Type u} {τ : Type v} (lt : Option τ)
    (args : List (Arg α)) : Expansion α τ :=
  match args with
  | [] => .machinery lt [.litArg (.elems []) .noAnn]
  | args => .machinery lt args

/-- Model of the top-level concat_arrays macro rules, in source order: a
completely empty invocation expands to the bare literal; an invocation with a
directive clause goes through the preprocess step; anything else goes to the
machinery directly. -/
def concatArraysDispatch {α : Type u} {τ : Type v} :
    Directive τ → List (Arg α) → Expansion α τ
  | .noClause, [] => .emptyLit
  | .clause lt, args => __concat_arrays_preprocess_inner lt args
  | .noClause, args => .machinery none args

/-- Evaluate an expansion: the bare literal is the empty array and declares
nothing; the machinery runs concatArraysInner. -/
def expansionOutcome {α : Type u} {τ : Type v} (s : Nat) :
    Expansion α τ → Option (List α) × Option (τ × Nat)
  | .emptyLit => (some [], none)
  | .machinery lt args => concatArraysInner s lt args

/-- Map a function over the element expressions of an array literal. -/
def mapArrLit {α : Type u} {β : Type v} (f : α → β) : ArrLit α → ArrLit β
  | .elems es => .elems (es.map f)
  | .rep v n => .rep (f v) n

lemma ascription_id {α : Type u} (e : List α) (f : AscriptionForm) :
    __type_ascription e f = e := by
  cases f <;> rfl

lemma fields_eq {α : Type u} (args : List (Arg α)) :
    (args.map fun a => __type_ascription (argValue a) (annAscription (argAnn a)))
      = args.map argValue := by
  induction args with
  | nil => rfl
  | cons a rest ih => simp [List.map_cons, ascription_id, ih]

lemma concatLen_go {α : Type u} (args : List (Arg α)) (acc : Nat) :
    args.foldl (fun len a => len + resolvedLen a) acc
      = acc + (args.map resolvedLen).sum := by
  induction args generalizing acc with
  | nil => simp
  | cons a rest ih =>
      simp [List.foldl_cons, List.map_cons, List.sum_cons, ih, Nat.add_assoc]

lemma concatLen_eq_sum {α : Type u} (args : List (Arg α)) :
    concatLen args = (args.map resolvedLen).sum := by
  simpa using concatLen_go args 0

lemma sizeOfConcater_eq (s : Nat) (lens : List Nat) :
    sizeOfConcater s lens = lens.sum * s := by
  induction lens with
  | nil => simp [sizeOfConcater]
  | cons n rest ih =>
      simp only [sizeOfConcater, List.map_cons, List.sum_cons] at ih ⊢
      rw [ih, sizeOfArray, Nat.add_mul]

lemma argsOk_lengths {α : Type u} {args : List (Arg α)} (h : argsOk args = true) :
    args.map (fun a => (argValue a).length) = args.map resolvedLen := by
  induction args with
  | nil => rfl
  | cons a rest ih =>
      simp only [argsOk, List.all_cons, Bool.and_eq_true] at h
      have h1 : (argValue a).length = resolvedLen a := by
        have h2 := h.1
        simp only [argOk, Bool.and_eq_true, beq_iff_eq] at h2
        exact h2.1
      simp [List.map_cons, h1, ih (by simpa [argsOk] using h.2)]

lemma inner_eval {α : Type u} {τ : Type v} (s : Nat) (lt : Option τ)
    (args : List (Arg α)) (h : argsOk args = true) :
    concatArraysInner s lt args
      = (some ((args.map argValue).flatten),
         Option.map (fun t => (t, concatLen args)) lt) := by
  have hdecl2 : (__declare_length_type_and_pass lt (concatLen args)).2 = concatLen args := by
    cases lt <;> rfl
  have hdecl1 : (__declare_length_type_and_pass lt (concatLen args)).1
      = Option.map (fun t => (t, concatLen args)) lt := by
    cases lt <;> rfl
  have hlens : (args.map argValue).map List.length = args.map resolvedLen := by
    rw [List.map_map]
    simpa [Function.comp] using argsOk_lengths h
  have hassert : concatAssert s (args.map resolvedLen) (concatLen args) = true := by
    simp [concatAssert, sizeOfConcater_eq, sizeOfArray, concatLen_eq_sum]
  have hflat : ((args.map argValue).flatten).length = concatLen args := by
    rw [List.length_flatten, hlens, concatLen_eq_sum]
  unfold concatArraysInner
  rw [if_pos h, fields_eq, hdecl2, hdecl1]
  simp only [Prod.mk.injEq, and_true]
  simp [concat_arrays, hlens, hassert, hflat]

lemma flatten_length_eq {α : Type u} (args : List (Arg α)) (h : argsOk args = true) :
    ((args.map argValue).flatten).length = concatLen args := by
  rw [List.length_flatten, List.map_map]
  rw [show List.length ∘ argValue = fun a : Arg α => (argValue a).length from rfl]
  rw [argsOk_lengths h, concatLen_eq_sum]

lemma emptyLit_argsOk {α : Type u} :
    argsOk [(Arg.litArg (ArrLit.elems []) Ann.noAnn : Arg α)] = true := by
  simp [argsOk, argOk, argValue, litValue, resolvedLen, __get_array_length, argAnn, annLenOk]

lemma dispatch_eval {α : Type u} {τ : Type v} (s : Nat) (dir : Directive τ)
    (args : List (Arg α)) (h : argsOk args = true) :
    (expansionOutcome s (concatArraysDispatch dir args)).1
      = some ((args.map argValue).flatten) := by
  cases dir with
  | noClause =>
      cases args with
      | nil => rfl
      | cons a rest =>
          show (concatArraysInner s none (a :: rest)).1 = _
          rw [inner_eval s none (a :: rest) h]
  | clause lt =>
      cases args with
      | nil =>
          show (concatArraysInner s lt [(Arg.litArg (ArrLit.elems []) Ann.noAnn : Arg α)]).1 = _
          rw [inner_eval s lt _ emptyLit_argsOk]
          simp [argValue, litValue]
      | cons a rest =>
          show (concatArraysInner s lt (a :: rest)).1 = _
          rw [inner_eval s lt (a :: rest) h]

lemma count_flatten_eq {α : Type u} [DecidableEq α] (ls : List (List α)) (x : α) :
    (ls.flatten).count x = (ls.map fun l => l.count x).sum := by
  induction ls with
  | nil => rfl
  | cons l rest ih => simp [List.flatten_cons, List.count_append, ih]

/-- C1: for every valid argument list, the array the concat_arrays macro
produces is exactly the concatenation, in argument order, of the element
sequences of the arguments, with no reordering, interleaving, omission, or
padding. -/
theorem concat_preserves_sequence {α : Type u} {τ : Type v} (s : Nat)
    (dir : Directive τ) (args : List (Arg α)) (h : argsOk args = true) :
    (expansionOutcome s (concatArraysDispatch dir args)).1
      = some ((args.map argValue).flatten) :=
  dispatch_eval s dir args h

/-- Witness for C1 at the literal example of the spec. -/
theorem concat_preserves_sequence_witness :
    (expansionOutcome 1 (concatArraysDispatch (Directive.noClause : Directive Unit)
        [Arg.litArg (ArrLit.elems [3, 4, 64]) Ann.noAnn,
         Arg.litArg (ArrLit.elems [7, 11, 13, 17]) Ann.noAnn])).1
      = some [3, 4, 64, 7, 11, 13, 17] :=
  concat_preserves_sequence 1 Directive.noClause
    [Arg.litArg (ArrLit.elems [3, 4, 64]) Ann.noAnn,
     Arg.litArg (ArrLit.elems [7, 11, 13, 17]) Ann.noAnn] (by decide)

/-- C2: the produced array's length equals CONCAT_LEN, the left-to-right sum,
starting from 0, of the resolved per-argument lengths. -/
theorem concat_length_eq_sum_of_resolved {α : Type u} {τ : Type v} (s : Nat)
    (dir : Directive τ) (args : List (Arg α)) (out : List α)
    (h : argsOk args = true)
    (hout : (expansionOutcome s (concatArraysDispatch dir args)).1 = some out) :
    out.length = concatLen args := by
  rw [dispatch_eval s dir args h] at hout
  injection hout with h2
  rw [← h2]
  exact flatten_length_eq args h

/-- Witness for C2 with arguments of lengths 2 and 1. -/
theorem concat_length_eq_sum_of_resolved_witness :
    ([5, 6, 7] : List Nat).length
      = concatLen [Arg.litArg (ArrLit.elems [5, 6]) Ann.noAnn,
                   Arg.litArg (ArrLit.elems [7]) Ann.noAnn] :=
  concat_length_eq_sum_of_resolved 1 (Directive.noClause : Directive Unit)
    [Arg.litArg (ArrLit.elems [5, 6]) Ann.noAnn,
     Arg.litArg (ArrLit.elems [7]) Ann.noAnn] [5, 6, 7] (by decide) (by decide)

/-- C3 counterexample: when the element type is zero-sized, declared lengths
summing to 1 against a declared total of 0 still pass the size-equality
assertion, since both byte sizes are 0. -/
theorem size_assert_zst_mismatch_passes :
    ([1] : List Nat).sum ≠ 0 ∧ concatAssert 0 [1] 0 = true := by
  decide

/-- C3 (amended): the static assertion states that the byte size of the
packed aggregate equals the byte size of the target array type; whenever the
lengths sum correctly it passes, and for element types of nonzero size any
mismatched sum fails it (for zero-sized element types both sizes are 0 and a
mismatch passes). -/
theorem size_assert_amended (s : Nat) (lens : List Nat) (L : Nat) :
    (concatAssert s lens L = true ↔ sizeOfConcater s lens = sizeOfArray s L) ∧
    (lens.sum = L → concatAssert s lens L = true) ∧
    (0 < s → lens.sum ≠ L → concatAssert s lens L = false) := by
  refine ⟨by simp [concatAssert], ?_, ?_⟩
  · intro hsum
    subst hsum
    simp [concatAssert, sizeOfConcater_eq, sizeOfArray]
  · intro hs hne
    have h2 : sizeOfConcater s lens ≠ sizeOfArray s L := by
      rw [sizeOfConcater_eq, sizeOfArray]
      exact fun hEq => hne (Nat.eq_of_mul_eq_mul_right hs hEq)
    simp [concatAssert, h2]

/-- Witness for C3 (amended): with element size 1, summing lengths pass and
mismatched lengths fail. -/
theorem size_assert_amended_witness :
    concatAssert 1 [2, 3] 5 = true ∧ concatAssert 1 [2, 3] 4 = false :=
  ⟨(size_assert_amended 1 [2, 3] 5).2.1 (by decide),
   (size_assert_amended 1 [2, 3] 4).2.2 (by decide) (by decide)⟩

/-- C4: no element is duplicated or lost: every element value occurs in the
output exactly as many times as in all the source arguments combined, so each
source element transfers to exactly one output slot. -/
theorem concat_no_duplication {α : Type u} {τ : Type v} [DecidableEq α] (s : Nat)
    (dir : Directive τ) (args : List (Arg α)) (out : List α) (x : α)
    (h : argsOk args = true)
    (hout : (expansionOutcome s (concatArraysDispatch dir args)).1 = some out) :
    out.count x = (args.map fun a => (argValue a).count x).sum := by
  rw [dispatch_eval s dir args h] at hout
  injection hout with h2
  rw [← h2, count_flatten_eq, List.map_map]
  rfl

/-- Witness for C4 with a repeated element across two arguments. -/
theorem concat_no_duplication_witness :
    ([9, 9, 9] : List Nat).count 9
      = ([Arg.litArg (ArrLit.rep 9 2) Ann.noAnn,
          Arg.litArg (ArrLit.elems [9]) Ann.noAnn].map
            fun a => (argValue a).count 9).sum :=
  concat_no_duplication 1 (Directive.noClause : Directive Unit)
    [Arg.litArg (ArrLit.rep 9 2) Ann.noAnn,
     Arg.litArg (ArrLit.elems [9]) Ann.noAnn] [9, 9, 9] 9 (by decide) (by decide)

/-- C5: concatenating a single argument returns that argument value
unchanged. -/
theorem concat_single_identity {α : Type u} {τ : Type v} (s : Nat) (a : Arg α)
    (h : argOk a = true) :
    (expansionOutcome s
        (concatArraysDispatch (Directive.noClause : Directive τ) [a])).1
      = some (argValue a) := by
  have hall : argsOk [a] = true := by simp [argsOk, h]
  simpa using dispatch_eval s (Directive.noClause : Directive τ) [a] hall

/-- Witness for C5 on an annotated expression argument. -/
theorem concat_single_identity_witness :
    (expansionOutcome 1 (concatArraysDispatch (Directive.noClause : Directive Unit)
        [Arg.exprArg [10, 20] (Ann.lenAnn 2)])).1
      = some [10, 20] :=
  concat_single_identity 1 (Arg.exprArg [10, 20] (Ann.lenAnn 2)) (by decide)

/-- C6 counterexample: with a directive clause present, a zero-argument
invocation does not short-circuit: it expands to the machinery applied to a
single empty array literal, not to the bare empty-array literal. -/
theorem zero_args_clause_counterexample :
    concatArraysDispatch (Directive.clause (none : Option Unit)) ([] : List (Arg Nat))
        = Expansion.machinery none [Arg.litArg (ArrLit.elems []) Ann.noAnn] ∧
    concatArraysDispatch (Directive.clause (none : Option Unit)) ([] : List (Arg Nat))
        ≠ Expansion.emptyLit := by
  decide

/-- C6 (amended): a zero-argument invocation with no directive clause
short-circuits to the bare empty-array literal; with a directive clause the
empty argument list is instead rewritten to a single empty array literal and
runs through the generic machinery; in both cases the value is the empty
array. -/
theorem zero_args_empty_array {α : Type u} {τ : Type v} (s : Nat) (dir : Directive τ) :
    concatArraysDispatch (Directive.noClause : Directive τ) ([] : List (Arg α))
        = Expansion.emptyLit ∧
    (expansionOutcome s (concatArraysDispatch dir ([] : List (Arg α)))).1 = some [] := by
  refine ⟨rfl, ?_⟩
  cases dir with
  | noClause => rfl
  | clause lt =>
      show (concatArraysInner s lt [(Arg.litArg (ArrLit.elems []) Ann.noAnn : Arg α)]).1 = some []
      rw [inner_eval s lt _ emptyLit_argsOk]
      simp [argValue, litValue]

/-- C7: the infer_mda probe call sits under a condition that is literally
false, so it executes zero times, and the infer branch of __length_or_infer
evaluates to Usize::get of the const parameter unified with the argument
array's actual length. -/
theorem probe_never_runs_and_length_inferred {α : Type u} (v : List α) :
    probeRuns inferGuard = 0 ∧
    __length_or_infer_inferred v = Usize.get (Usize.mk : Usize v.length) ∧
    Usize.get (Usize.mk : Usize v.length) = v.length :=
  ⟨rfl, rfl, rfl⟩

/-- C8: with the length_type directive, the declared LEN associated constant
equals the length of the returned array. -/
theorem length_type_LEN_eq_output_length {α : Type u} {τ : Type v} (s : Nat)
    (t : τ) (args : List (Arg α)) (out : List α)
    (h : argsOk args = true)
    (hout : (expansionOutcome s
        (concatArraysDispatch (Directive.clause (some t)) args)).1 = some out) :
    (expansionOutcome s
        (concatArraysDispatch (Directive.clause (some t)) args)).2
      = some (t, out.length) := by
  cases args with
  | nil =>
      have hev := inner_eval s (some t)
        [(Arg.litArg (ArrLit.elems []) Ann.noAnn : Arg α)] emptyLit_argsOk
      have hout2 : (concatArraysInner s (some t)
          [(Arg.litArg (ArrLit.elems []) Ann.noAnn : Arg α)]).1 = some out := hout
      rw [hev] at hout2
      injection hout2 with h2
      show (concatArraysInner s (some t)
          [(Arg.litArg (ArrLit.elems []) Ann.noAnn : Arg α)]).2 = some (t, out.length)
      rw [hev, ← h2]
      rfl
  | cons a rest =>
      have hev := inner_eval s (some t) (a :: rest) h
      have hout2 : (concatArraysInner s (some t) (a :: rest)).1 = some out := hout
      rw [hev] at hout2
      injection hout2 with h2
      show (concatArraysInner s (some t) (a :: rest)).2 = some (t, out.length)
      rw [hev, ← h2, flatten_length_eq (a :: rest) h]
      rfl

/-- Witness for C8: arguments of lengths 1, 3 and 5 make the declared LEN
constant equal 9. -/
theorem length_type_LEN_eq_output_length_witness :
    (expansionOutcome 1 (concatArraysDispatch (Directive.clause (some ()))
        [Arg.litArg (ArrLit.elems [0]) Ann.noAnn,
         Arg.litArg (ArrLit.elems [1, 2, 3]) Ann.noAnn,
         Arg.litArg (ArrLit.rep 4 5) Ann.noAnn])).2
      = some ((), 9) :=
  length_type_LEN_eq_output_length 1 ()
    [Arg.litArg (ArrLit.elems [0]) Ann.noAnn,
     Arg.litArg (ArrLit.elems [1, 2, 3]) Ann.noAnn,
     Arg.litArg (ArrLit.rep 4 5) Ann.noAnn]
    [0, 1, 2, 3, 4, 4, 4, 4, 4] (by decide) (by decide)

/-- C9: array-literal lengths come from the literal structure alone: the
element count for element lists, the repeat count for repeat forms, 0 for the
empty literal, and the computation is independent of the element
expressions and their type. -/
theorem array_literal_length_structural {α : Type u} {β : Type v} (f : α → β)
    (l : ArrLit α) (es : List α) (v : α) (n : Nat) :
    __get_array_length (ArrLit.elems es) = es.length ∧
    __get_array_length (ArrLit.rep v n) = n ∧
    __get_array_length (ArrLit.elems ([] : List α)) = 0 ∧
    __get_array_length (mapArrLit f l) = __get_array_length l := by
  refine ⟨?_, rfl, rfl, ?_⟩
  · cases es <;> simp [__get_array_length, __as_unit]
  · cases l with
    | elems es => cases es <;> simp [mapArrLit, __get_array_length, __as_unit]
    | rep v n => rfl

/-- C10: type ascription is value-preserving for every ascription form: the
no-annotation form returns the expression itself, and the ArrayAndGhost and
Identity wrappers are construct-then-project round trips. -/
theorem type_ascription_preserves_value {α : Type u} (e : List α)
    (form : AscriptionForm) : __type_ascription e form = e := by
  cases form <;> rfl

end Arrcat
